import Mathlib

/-
  Verification of the scg-config configuration library (Go).

  Shallow embedding conventions:
  - Go dynamic values (interface{}) are the inductive type Value below; the Go
    nil interface is Value.vnil.
  - Go maps are association lists whose keys are unique; Go map iteration order
    is unspecified, and is modelled here by the list order.
  - Go machine integers are Int/Nat with explicit bounds where the code checks
    them; the code is taken to run on a 64-bit platform (int = int64).
  - Go float64/float32 payloads are modelled by the exact rational value of the
    IEEE number (every finite IEEE float is an exact rational).
  - strings.EqualFold is modelled by ASCII case folding on code points.
  - fallible operations return Option/Except.
-/

set_option maxRecDepth 4000

/-- ASCII case folding of one code point, as used by strings.EqualFold on
ASCII input: upper-case letters A-Z (65-90) map to a-z (97-122). -/
def foldCh (n : Nat) : Nat :=
  if 65 ≤ n ∧ n ≤ 90 then n + 32 else n

/-- Case-folded code points of a string. -/
def foldList (s : String) : List Nat :=
  s.data.map (fun c => foldCh c.toNat)

/-- Model of strings.EqualFold (ASCII): equality after case folding. -/
def eqFold (a b : String) : Bool :=
  foldList a == foldList b

/-- Accumulating base-10 digit parser over code points; fails on the first
code point that is not a digit (48-57). -/
def digitsToNatAux : List Nat → Nat → Option Nat
  | [], acc => some acc
  | n :: ns, acc =>
    if 48 ≤ n ∧ n ≤ 57 then digitsToNatAux ns (acc * 10 + (n - 48)) else none

/-- Digit part of strconv.ParseInt over code points: at least one base-10
digit, the signed result required to lie in [lo, hi]. Together with
goParseInt below this models ParseInt(s, 10, bits): an optional leading
sign (45 is the minus sign, 43 the plus sign) followed by digits. -/
def goParseIntCore (neg : Bool) (ds : List Nat) (lo hi : Int) : Option Int :=
  match ds with
  | [] => none
  | _ :: _ =>
    match digitsToNatAux ds 0 with
    | none => none
    | some n =>
      let v : Int := if neg then -(n : Int) else (n : Int)
      if v < lo ∨ hi < v then none else some v

/-- Sign handling of ParseInt: strip one optional sign, then parse the
digits with goParseIntCore. -/
def goParseInt (ns : List Nat) (lo hi : Int) : Option Int :=
  match ns with
  | [] => none
  | n :: rest =>
    if n = 45 then goParseIntCore true rest lo hi
    else if n = 43 then goParseIntCore false rest lo hi
    else goParseIntCore false (n :: rest) lo hi

/-- Model of strconv.ParseUint(s, 10, bits) over code points: base-10 digits
only (no sign), result at most hi. -/
def goParseUint (ns : List Nat) (hi : Nat) : Option Nat :=
  match ns with
  | [] => none
  | _ :: _ =>
    match digitsToNatAux ns 0 with
    | none => none
    | some n => if hi < n then none else some n

/-- Code points of a string. -/
def codes (s : String) : List Nat :=
  s.data.map Char.toNat

/-- Model of strconv.Atoi: ParseInt in base 10 with the bounds of the 64-bit
Go int. -/
def atoi (s : String) : Option Int :=
  goParseInt (codes s) (-(2 ^ 63)) (2 ^ 63 - 1)

/-- strconv.ParseInt(s, 10, 32). -/
def parseInt32 (s : String) : Option Int :=
  goParseInt (codes s) (-(2 ^ 31)) (2 ^ 31 - 1)

/-- strconv.ParseInt(s, 10, 64). -/
def parseInt64 (s : String) : Option Int :=
  goParseInt (codes s) (-(2 ^ 63)) (2 ^ 63 - 1)

/-- strconv.ParseUint(s, 10, 32). -/
def parseUint32 (s : String) : Option Nat :=
  goParseUint (codes s) (2 ^ 32 - 1)

/-- strconv.ParseUint(s, 10, 64). -/
def parseUint64 (s : String) : Option Nat :=
  goParseUint (codes s) (2 ^ 64 - 1)

/-- Accumulator-based split on the dot character, modelling
strings.Split(path, "."). -/
def splitDotAux (acc : List Char) : List Char → List String
  | [] => [String.mk acc]
  | c :: cs =>
    if c = '.' then String.mk acc :: splitDotAux [] cs
    else splitDotAux (acc ++ [c]) cs

/-- Model of strings.Split(s, "."). -/
def splitDot (s : String) : List String :=
  splitDotAux [] s.data

/-- Key of a Go map[interface{}]interface{} entry: either a string key or some
other comparable value (abstracted by a tag), which the resolver never
matches against a path segment. -/
inductive IKey : Type where
  | kstr (s : String)
  | kother (tag : Nat)
deriving DecidableEq, Repr

/-- Go dynamic value (interface{}). Containers use association lists for maps
and lists for slices. Float payloads are the exact rational value of the
IEEE number. time.Time is abstracted to an instant (Int), time.Duration to
its int64 nanosecond count, uuid.UUID to its 16 bytes, and url.URL to the
source text. -/
inductive Value : Type where
  | vnil
  | str (s : String)
  | vbool (b : Bool)
  | vint (n : Int)
  | vint32 (n : Int)
  | vint64 (n : Int)
  | vuint (n : Nat)
  | vuint32 (n : Nat)
  | vuint64 (n : Nat)
  | vfloat32 (q : ℚ)
  | vfloat64 (q : ℚ)
  | vtime (t : Int)
  | vdur (d : Int)
  | vbytes (bs : List Nat)
  | vuuid (bs : List Nat)
  | vurl (s : String)
  | smap (m : List (String × Value))
  | ssmap (m : List (String × String))
  | imap (m : List (IKey × Value))
  | arr (l : List Value)
  | sarr (l : List String)

/-- Snapshot shape: a Go map[string]interface{} as an association list. -/
abbrev Smap := List (String × Value)

/-- Whether a Value is the Go nil interface. -/
def Value.isNil : Value → Bool
  | .vnil => true
  | _ => false

namespace dotmap

/-- Case-sensitive lookup in a map[string]interface{}: the value stored at the
exact key (Go map indexing). -/
def lookupCS : List (String × Value) → String → Option Value
  | [], _ => none
  | (k, v) :: rest, key => if k = key then some v else lookupCS rest key

/-- Case-insensitive lookup in a map[string]interface{}: the first entry in
iteration order whose key is EqualFold-equal to the segment. -/
def lookupCI : List (String × Value) → String → Option Value
  | [], _ => none
  | (k, v) :: rest, key => if eqFold k key then some v else lookupCI rest key

/-- resolveStringMap from dotmap: exact lookup, or first EqualFold match when
caseInsensitive is set. -/
def resolveStringMap (configData : List (String × Value)) (key : String)
    (caseInsensitive : Bool) : Option Value :=
  if caseInsensitive then lookupCI configData key else lookupCS configData key

/-- Case-sensitive lookup in a map[string]string. -/
def lookupCSS : List (String × String) → String → Option String
  | [], _ => none
  | (k, v) :: rest, key => if k = key then some v else lookupCSS rest key

/-- Case-insensitive lookup in a map[string]string. -/
def lookupCIS : List (String × String) → String → Option String
  | [], _ => none
  | (k, v) :: rest, key => if eqFold k key then some v else lookupCIS rest key

/-- resolveStringStringMap from dotmap; the found string is boxed back into an
interface value. -/
def resolveStringStringMap (configData : List (String × String)) (key : String)
    (caseInsensitive : Bool) : Option Value :=
  if caseInsensitive then (lookupCIS configData key).map Value.str
  else (lookupCSS configData key).map Value.str

/-- Case-sensitive lookup in a map[interface{}]interface{} under the string
key of the segment. -/
def lookupCII : List (IKey × Value) → String → Option Value
  | [], _ => none
  | (k, v) :: rest, key => if k = IKey.kstr key then some v else lookupCII rest key

/-- Case-insensitive lookup in a map[interface{}]interface{}: the first entry
whose key is a string EqualFold-equal to the segment; non-string keys never
match. -/
def lookupCIIF : List (IKey × Value) → String → Option Value
  | [], _ => none
  | (IKey.kstr ks, v) :: rest, key =>
    if eqFold ks key then some v else lookupCIIF rest key
  | (IKey.kother _, _) :: rest, key => lookupCIIF rest key

/-- resolveInterfaceMap from dotmap. -/
def resolveInterfaceMap (configData : List (IKey × Value)) (key : String)
    (caseInsensitive : Bool) : Option Value :=
  if caseInsensitive then lookupCIIF configData key else lookupCII configData key

/-- resolveArrayIndex from dotmap: indexes []interface{} and []string when the
index is in bounds; every other shape yields not-found. -/
def resolveArrayIndex (current : Value) (idx : Int) : Option Value :=
  match current with
  | .arr l => if 0 ≤ idx ∧ idx < (l.length : Int) then l.get? idx.toNat else none
  | .sarr l =>
    if 0 ≤ idx ∧ idx < (l.length : Int) then (l.get? idx.toNat).map Value.str
    else none
  | _ => none

/-- resolveStep from dotmap: a segment that parses with strconv.Atoi is always
routed to array indexing, before the shape of the container is examined;
only non-numeric segments are looked up as map keys. -/
def resolveStep (current : Value) (part : String) (caseInsensitive : Bool) :
    Option Value :=
  match atoi part with
  | some idx => resolveArrayIndex current idx
  | none =>
    match current with
    | .smap m => resolveStringMap m part caseInsensitive
    | .ssmap m => resolveStringStringMap m part caseInsensitive
    | .imap m => resolveInterfaceMap m part caseInsensitive
    | _ => none

/-- resolvePath from dotmap: walk the segments, aborting with the nil
interface on the first failed step. -/
def resolvePath (current : Value) (parts : List String)
    (caseInsensitive : Bool) : Value :=
  match parts with
  | [] => current
  | p :: rest =>
    match resolveStep current p caseInsensitive with
    | none => .vnil
    | some next => resolvePath next rest caseInsensitive

/-- Resolve from dotmap: nil settings or an empty path yield nil; otherwise a
case-sensitive pass over the dot-split segments, repeated case-insensitively
from the root when the first pass produced nil. -/
def Resolve (settings : Option Smap) (path : String) : Value :=
  match settings with
  | none => .vnil
  | some m =>
    if path = "" then .vnil
    else
      let parts := splitDot path
      match resolvePath (.smap m) parts false with
      | .vnil => resolvePath (.smap m) parts true
      | v => v

end dotmap

/-- Error values of the configerrors package, as an enumeration. The dynamic
message wrapping done with fmt.Errorf is dropped: callers compare errors with
errors.Is against these sentinels, and tryTypeCast discards the wrapped
detail anyway. -/
inductive ConfigError : Type where
  | keyNotFound
  | wrongType
  | unknownType
  | notInt
  | notInt32
  | notInt64
  | notUint
  | notUint32
  | notUint64
  | notFloat32
  | notFloat64
  | notString
  | notBool
  | notStringInSlice
  | notStringSlice
  | notMap
  | notTime
  | notDuration
  | notBytes
  | notUUID
  | notURL
deriving DecidableEq, Repr

namespace utils

/-- Truncation of a rational toward zero, the rounding used by a Go
float-to-integer conversion. -/
def ratTrunc (q : ℚ) : Int :=
  if q < 0 then -(Int.floor (-q)) else Int.floor q

/-- Result of the Go conversion int64(f) for a float64 f. The Go
specification leaves the out-of-range case implementation-defined; on amd64
the hardware saturates to the minimum int64, which is what this models. -/
def goFloatToInt64 (q : ℚ) : Int :=
  let t := ratTrunc q
  if t < -(2 ^ 63) ∨ (2 ^ 63 - 1 : Int) < t then -(2 ^ 63) else t

/-- ToInt from utils. The float64 bounds are float64(math.MaxInt) and
float64(math.MinInt): rounding the 64-bit bounds to float64 gives exactly
2^63 and -2^63. -/
def ToInt : Value → Except ConfigError Int
  | .vint n => .ok n
  | .vint64 n =>
    if (2 ^ 63 - 1 : Int) < n ∨ n < -(2 ^ 63) then .error .notInt else .ok n
  | .vfloat64 q =>
    if ((2 : ℚ) ^ 63) < q ∨ q < -((2 : ℚ) ^ 63) then .error .notInt
    else .ok (goFloatToInt64 q)
  | .str s =>
    match atoi s with
    | some n => .ok n
    | none => .error .notInt
  | _ => .error .notInt

/-- ToInt32 from utils. Only int32, int and string inputs are accepted; in
particular every float64 and every int64 input takes the default branch. -/
def ToInt32 : Value → Except ConfigError Int
  | .vint32 n => .ok n
  | .vint n =>
    if (2 ^ 31 - 1 : Int) < n ∨ n < -(2 ^ 31) then .error .notInt32 else .ok n
  | .str s =>
    match parseInt32 s with
    | some n => .ok n
    | none => .error .notInt32
  | _ => .error .notInt32

/-- ToInt64 from utils. The int branch compares value > math.MaxInt, which
can never hold for a 64-bit int; the float64 branch converts with int64(f)
and performs no range check at all. -/
def ToInt64 : Value → Except ConfigError Int
  | .vint64 n => .ok n
  | .vint n => if (2 ^ 63 - 1 : Int) < n then .error .notInt64 else .ok n
  | .vfloat64 q => .ok (goFloatToInt64 q)
  | .str s =>
    match parseInt64 s with
    | some n => .ok n
    | none => .error .notInt64
  | _ => .error .notInt64

/-- ToUint from utils: uint directly, non-negative int, or a string parsed
with Atoi and then checked non-negative. -/
def ToUint : Value → Except ConfigError Nat
  | .vuint n => .ok n
  | .vint n => if n < 0 then .error .notUint else .ok n.toNat
  | .str s =>
    match atoi s with
    | some v => if v < 0 then .error .notUint else .ok v.toNat
    | none => .error .notUint
  | _ => .error .notUint

/-- ToUint32 from utils. -/
def ToUint32 : Value → Except ConfigError Nat
  | .vuint32 n => .ok n
  | .vint n =>
    if n < 0 ∨ (2 ^ 32 - 1 : Int) < n then .error .notUint32 else .ok n.toNat
  | .str s =>
    match parseUint32 s with
    | some n => .ok n
    | none => .error .notUint32
  | _ => .error .notUint32

/-- ToUint64 from utils. -/
def ToUint64 : Value → Except ConfigError Nat
  | .vuint64 n => .ok n
  | .vint n => if n < 0 then .error .notUint64 else .ok n.toNat
  | .str s =>
    match parseUint64 s with
    | some n => .ok n
    | none => .error .notUint64
  | _ => .error .notUint64

/-- Largest finite float32 value, (2 - 2^-23) * 2^127, as an exact
rational. -/
def maxFloat32 : ℚ := (2 ^ 24 - 1) * 2 ^ 104

/-- Simplified model of strconv.ParseFloat: optional sign, digits, optional
fractional digits. Exponents, hexadecimal floats, Inf and NaN are not
modelled, and the rounding of the decimal to a binary float is left exact;
no claim in this development depends on those aspects. -/
def parseGoFloat (s : String) : Option ℚ :=
  let p : Bool × List Nat :=
    match codes s with
    | 45 :: rest => (true, rest)
    | 43 :: rest => (false, rest)
    | _ => (false, codes s)
  let intPart := p.2.takeWhile (fun n => 48 ≤ n ∧ n ≤ 57)
  let rest := p.2.dropWhile (fun n => 48 ≤ n ∧ n ≤ 57)
  let frac : Option (List Nat) :=
    match rest with
    | [] => some []
    | 46 :: fs => if fs.all (fun n => 48 ≤ n ∧ n ≤ 57) ∧ fs ≠ [] then some fs else none
    | _ => none
  match frac with
  | none => none
  | some fs =>
    if intPart = [] ∧ fs = [] then none
    else
      match digitsToNatAux (intPart ++ fs) 0 with
      | none => none
      | some n =>
        let mag : ℚ := (n : ℚ) / ((10 : ℚ) ^ fs.length)
        some (if p.1 then -mag else mag)

/-- ToFloat32 from utils: float32 directly, float64 and parsed strings only
within the float32 range. -/
def ToFloat32 : Value → Except ConfigError ℚ
  | .vfloat32 q => .ok q
  | .vfloat64 q =>
    if maxFloat32 < q ∨ q < -maxFloat32 then .error .notFloat32 else .ok q
  | .str s =>
    match parseGoFloat s with
    | some q =>
      if maxFloat32 < q ∨ q < -maxFloat32 then .error .notFloat32 else .ok q
    | none => .error .notFloat32
  | _ => .error .notFloat32

/-- ToFloat64 from utils. -/
def ToFloat64 : Value → Except ConfigError ℚ
  | .vfloat64 q => .ok q
  | .vfloat32 q => .ok q
  | .str s =>
    match parseGoFloat s with
    | some q => .ok q
    | none => .error .notFloat64
  | _ => .error .notFloat64

/-- ToString from utils: only an actual string is accepted, returned as is. -/
def ToString : Value → Except ConfigError String
  | .str s => .ok s
  | _ => .error .notString

/-- Texts accepted by strconv.ParseBool. -/
def boolTexts : List (String × Bool) :=
  [("1", true), ("t", true), ("T", true), ("TRUE", true), ("true", true),
   ("True", true), ("0", false), ("f", false), ("F", false),
   ("FALSE", false), ("false", false), ("False", false)]

/-- ToBool from utils: bool directly, or a string in the canonical ParseBool
forms. -/
def ToBool : Value → Except ConfigError Bool
  | .vbool b => .ok b
  | .str s =>
    match (boolTexts.filter (fun p => p.1 = s)).head? with
    | some p => .ok p.2
    | none => .error .notBool
  | _ => .error .notBool

/-- All-strings check over a heterogeneous slice. -/
def allStrings : List Value → Option (List String)
  | [] => some []
  | .str s :: rest => (allStrings rest).map (fun l => s :: l)
  | _ :: _ => none

/-- ToStringSlice from utils: a []string as is, a []interface{} only when
every element is a string, anything else an error. -/
def ToStringSlice : Value → Except ConfigError (List String)
  | .sarr l => .ok l
  | .arr l =>
    match allStrings l with
    | some ss => .ok ss
    | none => .error .notStringInSlice
  | _ => .error .notStringSlice

/-- ToMap from utils: only a map[string]interface{} is accepted. -/
def ToMap : Value → Except ConfigError (List (String × Value))
  | .smap m => .ok m
  | _ => .error .notMap

/-- ToTime from utils: only an already-typed time.Time is accepted. -/
def ToTime : Value → Except ConfigError Int
  | .vtime t => .ok t
  | _ => .error .notTime

/-- ToDuration from utils: only an already-typed time.Duration is accepted. -/
def ToDuration : Value → Except ConfigError Int
  | .vdur d => .ok d
  | _ => .error .notDuration

/-- Bytes of the UTF-8 encoding of a string, modelling []byte(s). -/
def strBytes (s : String) : List Nat :=
  s.toUTF8.toList.map (fun b => b.toNat)

/-- ToBytes from utils: a []byte as is, or the bytes of a string. -/
def ToBytes : Value → Except ConfigError (List Nat)
  | .vbytes bs => .ok bs
  | .str s => .ok (strBytes s)
  | _ => .error .notBytes

/-- Value of a hexadecimal digit code point. -/
def hexVal (n : Nat) : Option Nat :=
  if 48 ≤ n ∧ n ≤ 57 then some (n - 48)
  else if 97 ≤ n ∧ n ≤ 102 then some (n - 87)
  else if 65 ≤ n ∧ n ≤ 70 then some (n - 55)
  else none

/-- Pairs of hex digits to bytes. -/
def hexPairs : List Nat → Option (List Nat)
  | [] => some []
  | hi :: lo :: rest =>
    match hexVal hi, hexVal lo, hexPairs rest with
    | some h, some l, some bs => some ((h * 16 + l) :: bs)
    | _, _, _ => none
  | _ :: [] => none

/-- Model of uuid.Parse restricted to the canonical
8-4-4-4-12 hyphenated form (the only form exercised here; uuid.Parse also
accepts urn-prefixed, braced and 32-digit forms). -/
def uuidParse (s : String) : Option (List Nat) :=
  let ns := codes s
  if ns.length = 36 ∧ ns.get? 8 = some 45 ∧ ns.get? 13 = some 45 ∧
      ns.get? 18 = some 45 ∧ ns.get? 23 = some 45 then
    hexPairs (ns.filter (fun n => n ≠ 45))
  else none

/-- ToUUID from utils: a uuid.UUID as is, or a parsed canonical string. -/
def ToUUID : Value → Except ConfigError (List Nat)
  | .vuuid bs => .ok bs
  | .str s =>
    match uuidParse s with
    | some bs => .ok bs
    | none => .error .notUUID
  | _ => .error .notUUID

/-- Simplified model of url.Parse, which fails only on control characters in
the input; the parsed URL is abstracted by its source text. -/
def urlParse (s : String) : Option String :=
  if (codes s).all (fun n => 32 ≤ n ∧ n ≠ 127) then some s else none

/-- ToURL from utils: an already parsed *url.URL as is, or a parsed string. -/
def ToURL : Value → Except ConfigError String
  | .vurl s => .ok s
  | .str s =>
    match urlParse s with
    | some u => .ok u
    | none => .error .notURL
  | _ => .error .notURL

end utils

namespace config

/-- KeyType from the contract package is a string type; its constants follow. -/
abbrev KeyType := String

/-- KeyType constant int. -/
def KeyType.int : KeyType := "int"

/-- KeyType constant int32. -/
def KeyType.int32 : KeyType := "int32"

/-- KeyType constant int64. -/
def KeyType.int64 : KeyType := "int64"

/-- KeyType constant uint. -/
def KeyType.uint : KeyType := "uint"

/-- KeyType constant uint32. -/
def KeyType.uint32 : KeyType := "uint32"

/-- KeyType constant uint64. -/
def KeyType.uint64 : KeyType := "uint64"

/-- KeyType constant float32. -/
def KeyType.float32 : KeyType := "float32"

/-- KeyType constant float64. -/
def KeyType.float64 : KeyType := "float64"

/-- KeyType constant string. -/
def KeyType.string : KeyType := "string"

/-- KeyType constant bool. -/
def KeyType.bool : KeyType := "bool"

/-- KeyType constant []string. -/
def KeyType.stringSlice : KeyType := "[]string"

/-- KeyType constant map. -/
def KeyType.map : KeyType := "map"

/-- KeyType constant time. -/
def KeyType.time : KeyType := "time"

/-- KeyType constant duration. -/
def KeyType.duration : KeyType := "duration"

/-- KeyType constant bytes. -/
def KeyType.bytes : KeyType := "bytes"

/-- KeyType constant uuid. -/
def KeyType.uuid : KeyType := "uuid"

/-- KeyType constant url. -/
def KeyType.url : KeyType := "url"

/-- One entry of the typeConverters table: the converter closure (which boxes
its typed result back into an interface value) and the static error returned
by tryTypeCast when the converter fails. -/
structure ConvEntry where
  fn : Value → Except ConfigError Value
  errStatic : ConfigError

/-- Association lookup keyed by the KeyType tag, modelling indexing of the
Go typeConverters map. -/
def lookupConv : List (KeyType × ConvEntry) → KeyType → Option ConvEntry
  | [], _ => none
  | (k, e) :: rest, typ => if k = typ then some e else lookupConv rest typ

/-- The typeConverters table from getter.go: one entry per registered
KeyType constant, each holding the converter closure and the static error
returned on its failure. -/
def typeConverters : List (KeyType × ConvEntry) :=
  [(KeyType.int, ⟨fun v => (utils.ToInt v).map Value.vint, .notInt⟩),
   (KeyType.int32, ⟨fun v => (utils.ToInt32 v).map Value.vint32, .notInt32⟩),
   (KeyType.int64, ⟨fun v => (utils.ToInt64 v).map Value.vint64, .notInt64⟩),
   (KeyType.uint, ⟨fun v => (utils.ToUint v).map Value.vuint, .notUint⟩),
   (KeyType.uint32, ⟨fun v => (utils.ToUint32 v).map Value.vuint32, .notUint32⟩),
   (KeyType.uint64, ⟨fun v => (utils.ToUint64 v).map Value.vuint64, .notUint64⟩),
   (KeyType.float32, ⟨fun v => (utils.ToFloat32 v).map Value.vfloat32, .notFloat32⟩),
   (KeyType.float64, ⟨fun v => (utils.ToFloat64 v).map Value.vfloat64, .notFloat64⟩),
   (KeyType.string, ⟨fun v => (utils.ToString v).map Value.str, .notString⟩),
   (KeyType.bool, ⟨fun v => (utils.ToBool v).map Value.vbool, .notBool⟩),
   (KeyType.stringSlice, ⟨fun v => (utils.ToStringSlice v).map Value.sarr, .notStringSlice⟩),
   (KeyType.map, ⟨fun v => (utils.ToMap v).map Value.smap, .notMap⟩),
   (KeyType.time, ⟨fun v => (utils.ToTime v).map Value.vtime, .notTime⟩),
   (KeyType.duration, ⟨fun v => (utils.ToDuration v).map Value.vdur, .notDuration⟩),
   (KeyType.bytes, ⟨fun v => (utils.ToBytes v).map Value.vbytes, .notBytes⟩),
   (KeyType.uuid, ⟨fun v => (utils.ToUUID v).map Value.vuuid, .notUUID⟩),
   (KeyType.url, ⟨fun v => (utils.ToURL v).map Value.vurl, .notURL⟩)]

/-- Lookup of the converter entry for a tag; a tag outside the seventeen
registered constants has no entry. -/
def converterFor (typ : KeyType) : Option ConvEntry :=
  lookupConv typeConverters typ

/-- tryTypeCast from getter.go: unknown tags give ErrUnknownType; a converter
failure is replaced by the static per-type error of the table entry. -/
def tryTypeCast (val : Value) (typ : KeyType) : Except ConfigError Value :=
  match converterFor typ with
  | none => .error .unknownType
  | some entry =>
    match entry.fn val with
    | .error _ => .error entry.errStatic
    | .ok v => .ok v

/-- Getter.Get from getter.go: empty key or nil snapshot is ErrKeyNotFound; a
flat hit is coerced with its error surfaced as is; otherwise path resolution
runs, absence is ErrKeyNotFound, and a coercion failure on a path-resolved
value collapses to the generic ErrWrongType. -/
def Get (cfg : Option Smap) (key : String) (typ : KeyType) :
    Except ConfigError Value :=
  match cfg with
  | none => .error .keyNotFound
  | some m =>
    if key = "" then .error .keyNotFound
    else
      match dotmap.lookupCS m key with
      | some v =>
        match tryTypeCast v typ with
        | .error e => .error e
        | .ok r => .ok r
      | none =>
        match dotmap.Resolve (some m) key with
        | .vnil => .error .keyNotFound
        | v =>
          match tryTypeCast v typ with
          | .error _ => .error .wrongType
          | .ok r => .ok r

/-- Getter.GetKey from getter.go: Get with the String tag, discarding the
error; the Go nil result is Value.vnil. -/
def GetKey (cfg : Option Smap) (key : String) : Value :=
  match Get cfg key KeyType.string with
  | .ok v => v
  | .error _ => .vnil

/-- Getter.GetString: zero value is the empty string. -/
def GetString (cfg : Option Smap) (key : String) : String :=
  match Get cfg key KeyType.string with
  | .ok (.str s) => s
  | _ => ""

/-- Getter.GetInt: zero value 0. -/
def GetInt (cfg : Option Smap) (key : String) : Int :=
  match Get cfg key KeyType.int with
  | .ok (.vint n) => n
  | _ => 0

/-- Getter.GetBool: zero value false. -/
def GetBool (cfg : Option Smap) (key : String) : Bool :=
  match Get cfg key KeyType.bool with
  | .ok (.vbool b) => b
  | _ => false

/-- Getter.GetFloat64: zero value 0. -/
def GetFloat64 (cfg : Option Smap) (key : String) : ℚ :=
  match Get cfg key KeyType.float64 with
  | .ok (.vfloat64 q) => q
  | _ => 0

/-- Getter.GetDuration: zero value 0. -/
def GetDuration (cfg : Option Smap) (key : String) : Int :=
  match Get cfg key KeyType.duration with
  | .ok (.vdur d) => d
  | _ => 0

/-- Getter.GetInt64: zero value 0. -/
def GetInt64 (cfg : Option Smap) (key : String) : Int :=
  match Get cfg key KeyType.int64 with
  | .ok (.vint64 n) => n
  | _ => 0

/-- Getter.GetStringSlice: zero value the nil slice (none). -/
def GetStringSlice (cfg : Option Smap) (key : String) : Option (List String) :=
  match Get cfg key KeyType.stringSlice with
  | .ok (.sarr l) => some l
  | _ => none

/-- Getter.GetStringMap: zero value the nil map (none). -/
def GetStringMap (cfg : Option Smap) (key : String) : Option Smap :=
  match Get cfg key KeyType.map with
  | .ok (.smap m) => some m
  | _ => none

/-- Getter.GetStringMapString: requests the Map coercion, then asserts the
result to map[string]string. -/
def GetStringMapString (cfg : Option Smap) (key : String) :
    Option (List (String × String)) :=
  match Get cfg key KeyType.map with
  | .ok (.ssmap m) => some m
  | _ => none

/-- Getter.GetTime: zero value time.Time{}, modelled as instant 0. -/
def GetTime (cfg : Option Smap) (key : String) : Int :=
  match Get cfg key KeyType.time with
  | .ok (.vtime t) => t
  | _ => 0

/-- Getter.HasKey from getter.go: flat lookup first, then dot-notation
resolution compared against nil. -/
def HasKey (cfg : Option Smap) (key : String) : Bool :=
  match cfg with
  | none => false
  | some m =>
    if key = "" then false
    else if (dotmap.lookupCS m key).isSome then true
    else !(dotmap.Resolve (some m) key).isNil

/-- The value Get locates for a key, before any coercion: a flat hit, or
else a non-nil path resolution; used to state claims about GetKey. -/
def lookupRaw (cfg : Option Smap) (key : String) : Option Value :=
  match cfg with
  | none => none
  | some m =>
    if key = "" then none
    else
      match dotmap.lookupCS m key with
      | some v => some v
      | none =>
        match dotmap.Resolve (some m) key with
        | .vnil => none
        | v => some v

/-- Abstract model of a Provider backend: its current AllSettings view, and
the outcome of the next ReadInConfig call (none models a read failure; some
gives the provider state after a successful re-read). -/
inductive ProviderModel : Type where
  | mk : Smap → Option ProviderModel → ProviderModel

/-- The AllSettings view of a provider. -/
def ProviderModel.settings : ProviderModel → Smap
  | .mk s _ => s

/-- The outcome of the next ReadInConfig call. -/
def ProviderModel.readNext : ProviderModel → Option ProviderModel
  | .mk _ r => r

/-- Config service state: the provider and the snapshot owned by the current
Getter. -/
structure ConfigS where
  provider : ProviderModel
  getter : Option Smap

/-- Config.Reload from config.go: ask the provider to re-read; on failure
return the wrapped error with the state untouched; on success rebuild the
Getter from the full settings view of the provider. -/
def Reload (c : ConfigS) : Option String × ConfigS :=
  match c.provider.readNext with
  | none => (some "error reloading config", c)
  | some p => (none, { provider := p, getter := some p.settings })

end config

/-- Whether an interface-map key is a string that case-folds to the given
segment (the match test of the case-insensitive pass over a
map[interface{}]interface{}). -/
def ikFoldMatch : IKey → String → Bool
  | .kstr ks, seg => eqFold ks seg
  | .kother _, _ => false

/-- A case-sensitive resolution route: traversing the given segments from the
start value, each step an exact map hit or an in-bounds index, reaches the
final value. This is the derivation shape of a successful first pass of
resolvePath. -/
inductive ExactRoute : Value → List String → Value → Prop where
  | done (v : Value) : ExactRoute v [] v
  | smapStep (m : Smap) (seg : String) (rest : List String) (next fin : Value)
      (ha : atoi seg = none) (hl : dotmap.lookupCS m seg = some next)
      (hr : ExactRoute next rest fin) : ExactRoute (.smap m) (seg :: rest) fin
  | ssmapStep (m : List (String × String)) (seg : String) (rest : List String)
      (s : String) (fin : Value)
      (ha : atoi seg = none) (hl : dotmap.lookupCSS m seg = some s)
      (hr : ExactRoute (.str s) rest fin) :
      ExactRoute (.ssmap m) (seg :: rest) fin
  | imapStep (m : List (IKey × Value)) (seg : String) (rest : List String)
      (next fin : Value)
      (ha : atoi seg = none) (hl : dotmap.lookupCII m seg = some next)
      (hr : ExactRoute next rest fin) : ExactRoute (.imap m) (seg :: rest) fin
  | idxStep (cur : Value) (seg : String) (rest : List String) (k : Int)
      (next fin : Value)
      (ha : atoi seg = some k) (hl : dotmap.resolveArrayIndex cur k = some next)
      (hr : ExactRoute next rest fin) : ExactRoute cur (seg :: rest) fin

/-- A case-sensitive resolution route along which, at every map step, the
stored key is the only key of that map that case-folds to the segment (no
differently-cased collision at any traversed level). -/
inductive ExactRouteU : Value → List String → Value → Prop where
  | done (v : Value) : ExactRouteU v [] v
  | smapStep (m : Smap) (seg : String) (rest : List String) (next fin : Value)
      (ha : atoi seg = none)
      (hu : (m.map Prod.fst).filter (fun k => eqFold k seg) = [seg])
      (hl : dotmap.lookupCS m seg = some next)
      (hr : ExactRouteU next rest fin) : ExactRouteU (.smap m) (seg :: rest) fin
  | ssmapStep (m : List (String × String)) (seg : String) (rest : List String)
      (s : String) (fin : Value)
      (ha : atoi seg = none)
      (hu : (m.map Prod.fst).filter (fun k => eqFold k seg) = [seg])
      (hl : dotmap.lookupCSS m seg = some s)
      (hr : ExactRouteU (.str s) rest fin) :
      ExactRouteU (.ssmap m) (seg :: rest) fin
  | imapStep (m : List (IKey × Value)) (seg : String) (rest : List String)
      (next fin : Value)
      (ha : atoi seg = none)
      (hu : (m.map Prod.fst).filter (fun ik => ikFoldMatch ik seg) =
        [IKey.kstr seg])
      (hl : dotmap.lookupCII m seg = some next)
      (hr : ExactRouteU next rest fin) : ExactRouteU (.imap m) (seg :: rest) fin
  | idxStep (cur : Value) (seg : String) (rest : List String) (k : Int)
      (next fin : Value)
      (ha : atoi seg = some k) (hl : dotmap.resolveArrayIndex cur k = some next)
      (hr : ExactRouteU next rest fin) : ExactRouteU cur (seg :: rest) fin

/-- Case folding fixes every code point below 65. -/
theorem foldCh_of_lt {n : Nat} (h : n < 65) : foldCh n = n := by
  unfold foldCh
  split_ifs with h1
  · omega
  · rfl

/-- Case folding is injective when the target code point is below 65. -/
theorem foldCh_inj_lt {m n : Nat} (hn : n < 65) (h : foldCh m = foldCh n) :
    m = n := by
  unfold foldCh at h
  split_ifs at h <;> omega

/-- A successful digit parse classifies every code point as a digit. -/
theorem digitsToNatAux_mem {ds : List Nat} {acc n : Nat}
    (h : digitsToNatAux ds acc = some n) : ∀ x ∈ ds, 48 ≤ x ∧ x ≤ 57 := by
  induction ds generalizing acc with
  | nil => intro x hx; cases hx
  | cons d rest ih =>
    intro x hx
    unfold digitsToNatAux at h
    split_ifs at h with hd
    · rcases List.mem_cons.mp hx with rfl | hx2
      · exact hd
      · exact ih h x hx2

/-- A successful core parse classifies every code point as a digit. -/
theorem goParseIntCore_mem {neg : Bool} {ds : List Nat} {lo hi : Int} {v : Int}
    (h : goParseIntCore neg ds lo hi = some v) : ∀ x ∈ ds, 48 ≤ x ∧ x ≤ 57 := by
  unfold goParseIntCore at h
  cases ds with
  | nil => cases h
  | cons d rest =>
    cases hd : digitsToNatAux (d :: rest) 0 with
    | none => rw [hd] at h; cases h
    | some n => exact digitsToNatAux_mem hd

/-- A successful ParseInt classifies every code point as a sign or a digit. -/
theorem goParseInt_mem {ns : List Nat} {lo hi : Int} {v : Int}
    (h : goParseInt ns lo hi = some v) :
    ∀ x ∈ ns, x = 43 ∨ x = 45 ∨ (48 ≤ x ∧ x ≤ 57) := by
  cases ns with
  | nil => cases h
  | cons n rest =>
    simp only [goParseInt] at h
    split_ifs at h with h45 h43
    · intro x hx
      rcases List.mem_cons.mp hx with rfl | hx2
      · exact Or.inr (Or.inl h45)
      · exact Or.inr (Or.inr (goParseIntCore_mem h x hx2))
    · intro x hx
      rcases List.mem_cons.mp hx with rfl | hx2
      · exact Or.inl h43
      · exact Or.inr (Or.inr (goParseIntCore_mem h x hx2))
    · intro x hx
      exact Or.inr (Or.inr (goParseIntCore_mem h x hx))

/-- Fold-equal code point lists agree when one side folds to itself. -/
theorem map_foldCh_inj {ns ms : List Nat} (hlt : ∀ x ∈ ns, x < 65)
    (h : ms.map foldCh = ns.map foldCh) : ms = ns := by
  induction ns generalizing ms with
  | nil =>
    simpa using h
  | cons n rest ih =>
    cases ms with
    | nil => simp at h
    | cons m mrest =>
      simp only [List.map_cons, List.cons.injEq] at h
      have hm : m = n :=
        foldCh_inj_lt (hlt n (List.mem_cons_self n rest)) h.1
      have hrest : mrest = rest :=
        ih (fun x hx => hlt x (List.mem_cons_of_mem n hx)) h.2
      rw [hm, hrest]

/-- The folded code points of a string are the fold of its code points. -/
theorem foldList_eq_codes (s : String) : foldList s = (codes s).map foldCh := by
  unfold foldList codes
  rw [List.map_map]
  rfl

/-- EqualFold-equal strings parse identically under ParseInt: a successful
parse contains only sign and digit code points, which case folding fixes,
so the other string has the same code points. -/
theorem goParseInt_eqFold {p q : String} {lo hi : Int} {v : Int}
    (he : eqFold p q = true) (hp : goParseInt (codes p) lo hi = some v) :
    goParseInt (codes q) lo hi = some v := by
  have hmem := goParseInt_mem hp
  have hlt : ∀ x ∈ codes p, x < 65 := by
    intro x hx
    rcases hmem x hx with h | h | h <;> omega
  have hfl : foldList p = foldList q := by
    simpa [eqFold] using he
  have hmapeq : (codes q).map foldCh = (codes p).map foldCh := by
    rw [← foldList_eq_codes, ← foldList_eq_codes, hfl]
  rw [map_foldCh_inj hlt hmapeq]
  exact hp

/-- eqFold is reflexive. -/
theorem eqFold_refl (s : String) : eqFold s s = true := by
  simp [eqFold]

/-- eqFold is symmetric. -/
theorem eqFold_symm {a b : String} (h : eqFold a b = true) :
    eqFold b a = true := by
  simp [eqFold] at h ⊢
  exact h.symm

/-- eqFold is transitive. -/
theorem eqFold_trans {a b c : String} (h1 : eqFold a b = true)
    (h2 : eqFold b c = true) : eqFold a c = true := by
  simp [eqFold] at h1 h2 ⊢
  exact h1.trans h2

/-- Atoi transfers along EqualFold-equal strings. -/
theorem atoi_eqFold {p q : String} {k : Int} (he : eqFold p q = true)
    (hp : atoi p = some k) : atoi q = some k :=
  goParseInt_eqFold he hp

/-- Atoi failure transfers along EqualFold-equal strings. -/
theorem atoi_none_eqFold {p q : String} (he : eqFold p q = true)
    (hq : atoi q = none) : atoi p = none := by
  cases hp : atoi p with
  | none => rfl
  | some k => rw [atoi_eqFold he hp] at hq; cases hq

/-- A string accepted by Atoi contains no dot. -/
theorem atoi_no_dot {s : String} {k : Int} (h : atoi s = some k) :
    '.' ∉ s.data := by
  intro hmem
  have h46 : (46 : Nat) ∈ codes s := by
    have : ('.' : Char).toNat ∈ s.data.map Char.toNat :=
      List.mem_map_of_mem Char.toNat hmem
    simpa [codes] using this
  rcases goParseInt_mem h 46 h46 with h' | h' | h' <;> omega

/-- Splitting a dot-free character list returns one segment: the accumulator
followed by the list. -/
theorem splitDotAux_no_dot (l : List Char) (acc : List Char)
    (h : '.' ∉ l) : splitDotAux acc l = [String.mk (acc ++ l)] := by
  induction l generalizing acc with
  | nil => simp [splitDotAux]
  | cons c cs ih =>
    have hc : c ≠ '.' := fun hcc => h (hcc ▸ List.mem_cons_self c cs)
    have hcs : '.' ∉ cs := fun hm => h (List.mem_cons_of_mem c hm)
    unfold splitDotAux
    rw [if_neg hc, ih _ hcs, List.append_assoc]
    rfl

/-- Splitting past the first dot: a dot-free part before the dot becomes the
first segment, and the split restarts after the dot. -/
theorem splitDotAux_split (l1 l2 : List Char) (acc : List Char)
    (h : '.' ∉ l1) :
    splitDotAux acc (l1 ++ '.' :: l2) =
      String.mk (acc ++ l1) :: splitDotAux [] l2 := by
  induction l1 generalizing acc with
  | nil => simp [splitDotAux]
  | cons c cs ih =>
    have hc : c ≠ '.' := fun hcc => h (hcc ▸ List.mem_cons_self c cs)
    have hcs : '.' ∉ cs := fun hm => h (List.mem_cons_of_mem c hm)
    rw [List.cons_append, splitDotAux, if_neg hc, ih _ hcs, List.append_assoc]
    rfl

/-- Splitting a path of the form t.s where neither part contains a dot gives
exactly the two segments t and s. -/
theorem splitDot_sandwich (t s : String) (ht : '.' ∉ t.data)
    (hs : '.' ∉ s.data) : splitDot (t ++ "." ++ s) = [t, s] := by
  unfold splitDot
  have hdata : (t ++ "." ++ s).data = t.data ++ '.' :: s.data := by
    rw [String.data_append, String.data_append, List.append_assoc]
    rfl
  rw [hdata, splitDotAux_split _ _ _ ht, splitDotAux_no_dot _ _ hs]
  rfl

/-- A case-sensitive route is exactly what the first pass of resolvePath
follows: the pass returns the final value of the route. -/
theorem exactRoute_pass1 {root : Value} {parts : List String} {v : Value}
    (h : ExactRoute root parts v) : dotmap.resolvePath root parts false = v := by
  induction h with
  | done w => rfl
  | smapStep m seg rest next fin ha hl hr ih =>
    simp [dotmap.resolvePath, dotmap.resolveStep, ha, dotmap.resolveStringMap,
      hl, ih]
  | ssmapStep m seg rest s fin ha hl hr ih =>
    simp [dotmap.resolvePath, dotmap.resolveStep, ha,
      dotmap.resolveStringStringMap, hl, ih]
  | imapStep m seg rest next fin ha hl hr ih =>
    simp [dotmap.resolvePath, dotmap.resolveStep, ha,
      dotmap.resolveInterfaceMap, hl, ih]
  | idxStep cur seg rest k next fin ha hl hr ih =>
    simp [dotmap.resolvePath, dotmap.resolveStep, ha, hl, ih]

/-- Every unique-collision route is in particular a case-sensitive route. -/
theorem exactRouteU_exactRoute {root : Value} {parts : List String} {v : Value}
    (h : ExactRouteU root parts v) : ExactRoute root parts v := by
  induction h with
  | done w => exact ExactRoute.done w
  | smapStep m seg rest next fin ha hu hl hr ih =>
    exact ExactRoute.smapStep m seg rest next fin ha hl ih
  | ssmapStep m seg rest s fin ha hu hl hr ih =>
    exact ExactRoute.ssmapStep m seg rest s fin ha hl ih
  | imapStep m seg rest next fin ha hu hl hr ih =>
    exact ExactRoute.imapStep m seg rest next fin ha hl ih
  | idxStep cur seg rest k next fin ha hl hr ih =>
    exact ExactRoute.idxStep cur seg rest k next fin ha hl ih

/-- When the stored key is the unique fold-match of the segment in a string
map, the case-insensitive lookup of any fold-equal segment finds exactly the
exact-lookup value. -/
theorem lookupCI_of_unique {m : Smap} {seg p : String} {next : Value}
    (hu : (m.map Prod.fst).filter (fun k => eqFold k seg) = [seg])
    (hl : dotmap.lookupCS m seg = some next) (hp : eqFold p seg = true) :
    dotmap.lookupCI m p = some next := by
  induction m with
  | nil => cases hl
  | cons kv rest ih =>
    obtain ⟨k, v⟩ := kv
    by_cases hk : eqFold k seg = true
    · have hksg : k = seg ∧ (rest.map Prod.fst).filter
          (fun x => eqFold x seg) = [] := by
        simpa [hk] using hu
      have hkp : eqFold k p = true :=
        eqFold_trans hk (eqFold_symm hp)
      have hval : v = next := by
        have := hl
        simp [dotmap.lookupCS, hksg.1] at this
        exact this
      simp [dotmap.lookupCI, hkp, hval]
    · have hne : k ≠ seg := by
        intro hks
        exact hk (hks ▸ eqFold_refl seg)
      have hu2 : (rest.map Prod.fst).filter (fun x => eqFold x seg) = [seg] := by
        simpa [hk] using hu
      have hl2 : dotmap.lookupCS rest seg = some next := by
        have := hl
        simpa [dotmap.lookupCS, hne] using this
      have hkp : eqFold k p ≠ true := by
        intro hkp
        exact hk (eqFold_trans hkp hp)
      simp only [dotmap.lookupCI]
      rw [if_neg hkp]
      exact ih hu2 hl2

/-- Unique fold-match transfer for map[string]string. -/
theorem lookupCIS_of_unique {m : List (String × String)} {seg p : String}
    {next : String}
    (hu : (m.map Prod.fst).filter (fun k => eqFold k seg) = [seg])
    (hl : dotmap.lookupCSS m seg = some next) (hp : eqFold p seg = true) :
    dotmap.lookupCIS m p = some next := by
  induction m with
  | nil => cases hl
  | cons kv rest ih =>
    obtain ⟨k, v⟩ := kv
    by_cases hk : eqFold k seg = true
    · have hksg : k = seg ∧ (rest.map Prod.fst).filter
          (fun x => eqFold x seg) = [] := by
        simpa [hk] using hu
      have hkp : eqFold k p = true :=
        eqFold_trans hk (eqFold_symm hp)
      have hval : v = next := by
        have := hl
        simp [dotmap.lookupCSS, hksg.1] at this
        exact this
      simp [dotmap.lookupCIS, hkp, hval]
    · have hne : k ≠ seg := by
        intro hks
        exact hk (hks ▸ eqFold_refl seg)
      have hu2 : (rest.map Prod.fst).filter (fun x => eqFold x seg) = [seg] := by
        simpa [hk] using hu
      have hl2 : dotmap.lookupCSS rest seg = some next := by
        have := hl
        simpa [dotmap.lookupCSS, hne] using this
      have hkp : eqFold k p ≠ true := by
        intro hkp
        exact hk (eqFold_trans hkp hp)
      simp only [dotmap.lookupCIS]
      rw [if_neg hkp]
      exact ih hu2 hl2

/-- Unique fold-match transfer for map[interface{}]interface{}. -/
theorem lookupCIIF_of_unique {m : List (IKey × Value)} {seg p : String}
    {next : Value}
    (hu : (m.map Prod.fst).filter (fun ik => ikFoldMatch ik seg) =
      [IKey.kstr seg])
    (hl : dotmap.lookupCII m seg = some next) (hp : eqFold p seg = true) :
    dotmap.lookupCIIF m p = some next := by
  induction m with
  | nil => cases hl
  | cons kv rest ih =>
    obtain ⟨ik, v⟩ := kv
    cases ik with
    | kstr ks =>
      by_cases hk : eqFold ks seg = true
      · have hksg : IKey.kstr ks = IKey.kstr seg ∧ (rest.map Prod.fst).filter
            (fun x => ikFoldMatch x seg) = [] := by
          simpa [ikFoldMatch, hk] using hu
        have hks2 : ks = seg := by
          cases hksg.1
          rfl
        have hkp : eqFold ks p = true :=
          eqFold_trans hk (eqFold_symm hp)
        have hval : v = next := by
          have := hl
          simp [dotmap.lookupCII, hks2] at this
          exact this
        simp [dotmap.lookupCIIF, hkp, hval]
      · have hne : IKey.kstr ks ≠ IKey.kstr seg := by
          intro hks
          cases hks
          exact hk (eqFold_refl seg)
        have hu2 : (rest.map Prod.fst).filter (fun x => ikFoldMatch x seg) =
            [IKey.kstr seg] := by
          simpa [ikFoldMatch, hk] using hu
        have hl2 : dotmap.lookupCII rest seg = some next := by
          have := hl
          simpa [dotmap.lookupCII, hne] using this
        have hkp : eqFold ks p ≠ true := by
          intro hkp
          exact hk (eqFold_trans hkp hp)
        simp only [dotmap.lookupCIIF]
        rw [if_neg hkp]
        exact ih hu2 hl2
    | kother tag =>
      have hu2 : (rest.map Prod.fst).filter (fun x => ikFoldMatch x seg) =
          [IKey.kstr seg] := by
        simpa [ikFoldMatch] using hu
      have hl2 : dotmap.lookupCII rest seg = some next := by
        have := hl
        simpa [dotmap.lookupCII] using this
      simp only [dotmap.lookupCIIF]
      exact ih hu2 hl2

/-- Along a unique-collision route, the case-insensitive pass driven by any
segment list that is EqualFold-equal pointwise reaches the same final
value. -/
theorem exactRouteU_pass2 {root : Value} {parts2 : List String} {v : Value}
    (h : ExactRouteU root parts2 v) :
    ∀ parts : List String,
      List.Forall₂ (fun p q => eqFold p q = true) parts parts2 →
      dotmap.resolvePath root parts true = v := by
  induction h with
  | done w =>
    intro parts hf
    cases hf
    rfl
  | smapStep m seg rest next fin ha hu hl hr ih =>
    intro parts hf
    cases hf with
    | cons hpq hf2 =>
      rename_i p ps
      have hap : atoi p = none := atoi_none_eqFold hpq ha
      have hci : dotmap.lookupCI m p = some next :=
        lookupCI_of_unique hu hl hpq
      simp [dotmap.resolvePath, dotmap.resolveStep, hap,
        dotmap.resolveStringMap, hci, ih ps hf2]
  | ssmapStep m seg rest s fin ha hu hl hr ih =>
    intro parts hf
    cases hf with
    | cons hpq hf2 =>
      rename_i p ps
      have hap : atoi p = none := atoi_none_eqFold hpq ha
      have hci : dotmap.lookupCIS m p = some s :=
        lookupCIS_of_unique hu hl hpq
      simp [dotmap.resolvePath, dotmap.resolveStep, hap,
        dotmap.resolveStringStringMap, hci, ih ps hf2]
  | imapStep m seg rest next fin ha hu hl hr ih =>
    intro parts hf
    cases hf with
    | cons hpq hf2 =>
      rename_i p ps
      have hap : atoi p = none := atoi_none_eqFold hpq ha
      have hci : dotmap.lookupCIIF m p = some next :=
        lookupCIIF_of_unique hu hl hpq
      simp [dotmap.resolvePath, dotmap.resolveStep, hap,
        dotmap.resolveInterfaceMap, hci, ih ps hf2]
  | idxStep cur seg rest k next fin ha hl hr ih =>
    intro parts hf
    cases hf with
    | cons hpq hf2 =>
      rename_i p ps
      have hap : atoi p = some k := atoi_eqFold (eqFold_symm hpq) ha
      simp [dotmap.resolvePath, dotmap.resolveStep, hap, hl, ih ps hf2]

/-- C1 (amended): at each traversal step the segment is first tested with
strconv.Atoi; a segment that parses as an integer is always routed to array
indexing regardless of the container shape — on a sequence an in-range index
returns the element and an out-of-range one absence, while on a mapping it
always yields absence, so a map key whose text parses as an integer is
unreachable; only segments that do not parse as integers are looked up as
exact map keys (case-sensitively in the first pass). -/
theorem resolveStep_dispatch :
    (∀ (l : List Value) (s : String) (k : Int) (ci : Bool),
        atoi s = some k → 0 ≤ k → k < (l.length : Int) →
        dotmap.resolveStep (.arr l) s ci = l.get? k.toNat) ∧
    (∀ (l : List Value) (s : String) (k : Int) (ci : Bool),
        atoi s = some k → (k < 0 ∨ (l.length : Int) ≤ k) →
        dotmap.resolveStep (.arr l) s ci = none) ∧
    (∀ (m : Smap) (s : String) (k : Int) (ci : Bool),
        atoi s = some k → dotmap.resolveStep (.smap m) s ci = none) ∧
    (∀ (m : Smap) (s : String),
        atoi s = none →
        dotmap.resolveStep (.smap m) s false = dotmap.lookupCS m s) := by
  refine ⟨?_, ?_, ?_, ?_⟩
  · intro l s k ci ha h0 hlen
    simp only [dotmap.resolveStep, ha, dotmap.resolveArrayIndex]
    rw [if_pos ⟨h0, hlen⟩]
  · intro l s k ci ha hout
    simp only [dotmap.resolveStep, ha, dotmap.resolveArrayIndex]
    rw [if_neg ?_]
    rintro ⟨h0, hlen⟩
    rcases hout with h | h <;> omega
  · intro m s k ci ha
    simp only [dotmap.resolveStep, ha]
    rfl
  · intro m s ha
    simp only [dotmap.resolveStep, ha]
    rfl

/-- Witness for C1: concrete instances of each conjunct. -/
theorem resolveStep_dispatch_witness :
    dotmap.resolveStep (.arr [Value.str "a", Value.str "b"]) "1" false =
      some (Value.str "b") ∧
    dotmap.resolveStep (.arr [Value.str "a", Value.str "b"]) "5" false =
      none ∧
    dotmap.resolveStep (.smap [("0", Value.str "v")]) "0" false = none ∧
    dotmap.resolveStep (.smap [("0", Value.str "v")]) "x" false =
      dotmap.lookupCS [("0", Value.str "v")] "x" := by
  refine ⟨?_, ?_, ?_, ?_⟩
  · rw [resolveStep_dispatch.1 [Value.str "a", Value.str "b"] "1" 1 false rfl
      (by decide) (by decide)]
    rfl
  · exact resolveStep_dispatch.2.1 [Value.str "a", Value.str "b"] "5" 5 false
      rfl (Or.inr (by decide))
  · exact resolveStep_dispatch.2.2.1 [("0", Value.str "v")] "0" 0 false rfl
  · exact resolveStep_dispatch.2.2.2 [("0", Value.str "v")] "x" rfl

/-- Counterexample for C1 as stated: the snapshot stores the map key "0"
under "a", yet Resolve of "a.0" is absent because the numeric segment is
routed to array indexing before the mapping is considered. -/
theorem resolveStep_numeric_key_cex :
    dotmap.Resolve (some [("a", Value.smap [("0", Value.str "v")])]) "a.0" =
      Value.vnil ∧
    dotmap.lookupCS [("0", Value.str "v")] "0" = some (Value.str "v") ∧
    Value.vnil ≠ Value.str "v" :=
  ⟨rfl, rfl, fun h => Value.noConfusion h⟩

/-- C2 (amended): (1) when a path resolves along an exact-case route on which
every traversed map key is the unique fold-match of its segment, any path
whose segments are EqualFold-equal and whose own case-sensitive pass fails
resolves to the same value; (2) when an exact-case route exists for the
whole path and its final value is not nil, that value is what Resolve
returns. Without the uniqueness condition the first pass may win a
differently-cased collision (see the counterexample), and when the
exact-case value is nil the fallback pass runs and may return a
differently-cased collision. -/
theorem resolve_caseFold_equiv :
    (∀ (m : Smap) (path path2 : String) (v : Value),
        path ≠ "" → path2 ≠ "" →
        List.Forall₂ (fun p q => eqFold p q = true)
          (splitDot path) (splitDot path2) →
        ExactRouteU (.smap m) (splitDot path2) v →
        dotmap.resolvePath (.smap m) (splitDot path) false = .vnil →
        dotmap.Resolve (some m) path = dotmap.Resolve (some m) path2) ∧
    (∀ (m : Smap) (path : String) (v : Value),
        path ≠ "" →
        ExactRoute (.smap m) (splitDot path) v →
        v ≠ .vnil →
        dotmap.Resolve (some m) path = v) := by
  constructor
  · intro m path path2 v h1 h2 hf hU hnil
    have hpass1 : dotmap.resolvePath (.smap m) (splitDot path2) false = v :=
      exactRoute_pass1 (exactRouteU_exactRoute hU)
    have hpass2 : dotmap.resolvePath (.smap m) (splitDot path) true = v :=
      exactRouteU_pass2 hU _ hf
    have hself : List.Forall₂ (fun p q => eqFold p q = true)
        (splitDot path2) (splitDot path2) :=
      List.forall₂_same.mpr (fun x _ => eqFold_refl x)
    have hpass2b : dotmap.resolvePath (.smap m) (splitDot path2) true = v :=
      exactRouteU_pass2 hU _ hself
    have e1 : dotmap.Resolve (some m) path = v := by
      simp only [dotmap.Resolve]
      rw [if_neg h1, hnil]
      exact hpass2
    have e2 : dotmap.Resolve (some m) path2 = v := by
      simp only [dotmap.Resolve]
      rw [if_neg h2, hpass1]
      cases v
      case vnil => exact hpass2b
      all_goals rfl
    rw [e1, e2]
  · intro m path v h1 hroute hv
    have hpass1 : dotmap.resolvePath (.smap m) (splitDot path) false = v :=
      exactRoute_pass1 hroute
    simp only [dotmap.Resolve]
    rw [if_neg h1, hpass1]
    cases v
    case vnil => exact absurd rfl hv
    all_goals rfl

/-- Witness for C2 at a concrete snapshot: app.name resolves like App.Name,
and App.Name itself resolves exactly. -/
theorem resolve_caseFold_equiv_witness :
    dotmap.Resolve (some [("App", Value.smap [("Name", Value.str "scg")])])
        "app.name" =
      dotmap.Resolve (some [("App", Value.smap [("Name", Value.str "scg")])])
        "App.Name" ∧
    dotmap.Resolve (some [("App", Value.smap [("Name", Value.str "scg")])])
        "App.Name" = Value.str "scg" := by
  constructor
  · refine resolve_caseFold_equiv.1 _ "app.name" "App.Name" (Value.str "scg")
      (by decide) (by decide) ?_ ?_ rfl
    · show List.Forall₂ _ ["app", "name"] ["App", "Name"]
      exact .cons rfl (.cons rfl .nil)
    · show ExactRouteU _ ["App", "Name"] _
      refine ExactRouteU.smapStep _ _ _ (Value.smap [("Name", Value.str "scg")])
        _ rfl rfl rfl ?_
      refine ExactRouteU.smapStep _ _ _ (Value.str "scg") _ rfl rfl rfl ?_
      exact ExactRouteU.done _
  · refine resolve_caseFold_equiv.2 _ "App.Name" (Value.str "scg")
      (by decide) ?_ (fun h => Value.noConfusion h)
    show ExactRoute _ ["App", "Name"] _
    refine ExactRoute.smapStep _ _ _ (Value.smap [("Name", Value.str "scg")])
      _ rfl rfl ?_
    refine ExactRoute.smapStep _ _ _ (Value.str "scg") _ rfl rfl ?_
    exact ExactRoute.done _

/-- Counterexample for C2 as stated: with the case-colliding keys AA and Aa
both stored, the path aa has no exact-case match, differs from the stored
path Aa only in letter case, and yet resolves to the value of AA (the first
fold-match in iteration order), not to the value of Aa. -/
theorem resolve_caseFold_cex :
    dotmap.lookupCS [("AA", Value.str "x"), ("Aa", Value.str "y")] "aa" =
      none ∧
    dotmap.Resolve (some [("AA", Value.str "x"), ("Aa", Value.str "y")])
      "Aa" = Value.str "y" ∧
    dotmap.Resolve (some [("AA", Value.str "x"), ("Aa", Value.str "y")])
      "aa" = Value.str "x" ∧
    Value.str "x" ≠ Value.str "y" := by
  refine ⟨rfl, rfl, rfl, fun h => ?_⟩
  injection h with h2
  exact absurd h2 (by decide)

/-- When no key of the map is the empty string, the exact lookup of the
empty segment misses. -/
theorem lookupCS_empty_none {m : Smap} (h : ∀ kv ∈ m, kv.1 ≠ "") :
    dotmap.lookupCS m "" = none := by
  induction m with
  | nil => rfl
  | cons kv rest ih =>
    obtain ⟨k, v⟩ := kv
    have hk : k ≠ "" := h (k, v) (List.mem_cons_self _ _)
    simp only [dotmap.lookupCS]
    rw [if_neg hk]
    exact ih (fun kv2 hkv2 => h kv2 (List.mem_cons_of_mem _ hkv2))

/-- Only the empty string case-folds to the empty string. -/
theorem eqFold_empty_right {k : String} (h : eqFold k "" = true) : k = "" := by
  simp only [eqFold, foldList, beq_iff_eq] at h
  have hd : k.data = [] := by
    have : k.data.map (fun c => foldCh c.toNat) = [] := by
      simpa using h
    simpa using this
  cases k
  simp_all

/-- When no key of the map is the empty string, the case-insensitive lookup
of the empty segment also misses. -/
theorem lookupCI_empty_none {m : Smap} (h : ∀ kv ∈ m, kv.1 ≠ "") :
    dotmap.lookupCI m "" = none := by
  induction m with
  | nil => rfl
  | cons kv rest ih =>
    obtain ⟨k, v⟩ := kv
    have hk : k ≠ "" := h (k, v) (List.mem_cons_self _ _)
    have hf : eqFold k "" ≠ true := fun hf => hk (eqFold_empty_right hf)
    simp only [dotmap.lookupCI]
    rw [if_neg hf]
    exact ih (fun kv2 hkv2 => h kv2 (List.mem_cons_of_mem _ hkv2))

/-- C7 (amended): for the snapshot storing a sequence under the key list,
a path list.N whose segment parses as integer N returns the Nth element
(0-based) for 0 <= N < len and absence otherwise; and a trailing empty
segment is looked up as a map key like any other segment, so a path ending
in a dot is absent whenever no empty-string key is stored at that level
(an explicitly stored empty key does match it: see the counterexample). -/
theorem resolve_sequence_index :
    (∀ (l : List Value) (s : String) (k : Int) (e : Value),
        atoi s = some k → 0 ≤ k → k < (l.length : Int) →
        l.get? k.toNat = some e →
        dotmap.Resolve (some [("list", Value.arr l)]) ("list" ++ "." ++ s) =
          e) ∧
    (∀ (l : List Value) (s : String) (k : Int),
        atoi s = some k → (k < 0 ∨ (l.length : Int) ≤ k) →
        dotmap.Resolve (some [("list", Value.arr l)]) ("list" ++ "." ++ s) =
          Value.vnil) ∧
    (∀ m : Smap, (∀ kv ∈ m, kv.1 ≠ "") →
        dotmap.Resolve (some [("a", Value.smap m)]) "a." = Value.vnil) := by
  have hne : ∀ s : String, ("list" ++ "." ++ s) ≠ "" := by
    intro s h
    have h2 := congrArg String.length h
    rw [String.length_append, String.length_append,
      show ("list" : String).length = 4 from rfl,
      show ("." : String).length = 1 from rfl,
      show ("" : String).length = 0 from rfl] at h2
    omega
  refine ⟨?_, ?_, ?_⟩
  · intro l s k e ha h0 hlen hget
    have hsplit : splitDot ("list" ++ "." ++ s) = ["list", s] :=
      splitDot_sandwich "list" s (by decide) (atoi_no_dot ha)
    have hstep2 : ∀ ci, dotmap.resolveStep (Value.arr l) s ci = some e := by
      intro ci
      simp only [dotmap.resolveStep, ha, dotmap.resolveArrayIndex]
      rw [if_pos ⟨h0, hlen⟩, hget]
    have hp1 : dotmap.resolvePath (Value.smap [("list", Value.arr l)])
        ["list", s] false = e := by
      simp only [dotmap.resolvePath,
        show dotmap.resolveStep (Value.smap [("list", Value.arr l)]) "list"
          false = some (Value.arr l) from rfl, hstep2 false]
    have hp2 : dotmap.resolvePath (Value.smap [("list", Value.arr l)])
        ["list", s] true = e := by
      simp only [dotmap.resolvePath,
        show dotmap.resolveStep (Value.smap [("list", Value.arr l)]) "list"
          true = some (Value.arr l) from rfl, hstep2 true]
    simp only [dotmap.Resolve]
    rw [if_neg (hne s), hsplit, hp1]
    cases e
    case vnil => exact hp2
    all_goals rfl
  · intro l s k ha hout
    have hsplit : splitDot ("list" ++ "." ++ s) = ["list", s] :=
      splitDot_sandwich "list" s (by decide) (atoi_no_dot ha)
    have hstep2 : ∀ ci, dotmap.resolveStep (Value.arr l) s ci = none := by
      intro ci
      simp only [dotmap.resolveStep, ha, dotmap.resolveArrayIndex]
      rw [if_neg ?_]
      rintro ⟨hp0, hplen⟩
      rcases hout with hh | hh <;> omega
    have hp1 : dotmap.resolvePath (Value.smap [("list", Value.arr l)])
        ["list", s] false = Value.vnil := by
      simp only [dotmap.resolvePath,
        show dotmap.resolveStep (Value.smap [("list", Value.arr l)]) "list"
          false = some (Value.arr l) from rfl, hstep2 false]
    have hp2 : dotmap.resolvePath (Value.smap [("list", Value.arr l)])
        ["list", s] true = Value.vnil := by
      simp only [dotmap.resolvePath,
        show dotmap.resolveStep (Value.smap [("list", Value.arr l)]) "list"
          true = some (Value.arr l) from rfl, hstep2 true]
    simp only [dotmap.Resolve]
    rw [if_neg (hne s), hsplit, hp1]
    exact hp2
  · intro m hm
    have hsplit : splitDot "a." = ["a", ""] := rfl
    have hstep2f : dotmap.resolveStep (Value.smap m) "" false = none := by
      simp only [dotmap.resolveStep, show atoi "" = none from rfl,
        dotmap.resolveStringMap]
      exact lookupCS_empty_none hm
    have hstep2t : dotmap.resolveStep (Value.smap m) "" true = none := by
      simp only [dotmap.resolveStep, show atoi "" = none from rfl,
        dotmap.resolveStringMap]
      exact lookupCI_empty_none hm
    have hp1 : dotmap.resolvePath (Value.smap [("a", Value.smap m)])
        ["a", ""] false = Value.vnil := by
      simp only [dotmap.resolvePath,
        show dotmap.resolveStep (Value.smap [("a", Value.smap m)]) "a"
          false = some (Value.smap m) from rfl, hstep2f]
    have hp2 : dotmap.resolvePath (Value.smap [("a", Value.smap m)])
        ["a", ""] true = Value.vnil := by
      simp only [dotmap.resolvePath,
        show dotmap.resolveStep (Value.smap [("a", Value.smap m)]) "a"
          true = some (Value.smap m) from rfl, hstep2t]
    simp only [dotmap.Resolve]
    rw [if_neg (by decide : ("a." : String) ≠ ""), hsplit, hp1]
    exact hp2

/-- Witness for C7: a two-element list indexed in and out of range, and a
trailing dot over a map without an empty key. -/
theorem resolve_sequence_index_witness :
    dotmap.Resolve (some [("list", Value.arr [Value.str "a", Value.str "b"])])
      ("list" ++ "." ++ "1") = Value.str "b" ∧
    dotmap.Resolve (some [("list", Value.arr [Value.str "a", Value.str "b"])])
      ("list" ++ "." ++ "9") = Value.vnil ∧
    dotmap.Resolve (some [("a", Value.smap [("k", Value.str "v")])]) "a." =
      Value.vnil := by
  refine ⟨?_, ?_, ?_⟩
  · exact resolve_sequence_index.1 [Value.str "a", Value.str "b"] "1" 1
      (Value.str "b") rfl (by decide) (by decide) rfl
  · exact resolve_sequence_index.2.1 [Value.str "a", Value.str "b"] "9" 9
      rfl (Or.inr (by decide))
  · refine resolve_sequence_index.2.2 [("k", Value.str "v")] ?_
    intro kv hkv
    rcases List.mem_singleton.mp hkv with rfl
    decide

/-- Counterexample for C7 as stated: a trailing empty segment does match an
explicitly stored empty-string key, so a path ending in a dot is not always
absent. -/
theorem resolve_trailingDot_cex :
    dotmap.Resolve (some [("a", Value.smap [("", Value.str "v")])]) "a." =
      Value.str "v" ∧
    Value.str "v" ≠ Value.vnil :=
  ⟨rfl, fun h => Value.noConfusion h⟩

/-- C3 (amended): the Int target accepts int directly, int64 within the
64-bit range, float64 only within the float64-rounded bounds -2^63 and 2^63
of the platform int (range error outside), and strings via Atoi; the Int32
target accepts int32 directly and int within the 32-bit range (range error
outside), but rejects every float64 and every int64 value outright, and
accepts strings via ParseInt base 10 bit size 32; the Int64 target accepts
int64 directly, int, every float64 without any range check (truncating
conversion), and strings via ParseInt base 10 bit size 64. -/
theorem toInt_family_spec :
    (∀ n : Int, utils.ToInt (Value.vint n) = .ok n) ∧
    (∀ n : Int, -(2 ^ 63) ≤ n → n ≤ 2 ^ 63 - 1 →
        utils.ToInt (Value.vint64 n) = .ok n) ∧
    (∀ q : ℚ, -((2 : ℚ) ^ 63) ≤ q → q ≤ (2 : ℚ) ^ 63 →
        utils.ToInt (Value.vfloat64 q) = .ok (utils.goFloatToInt64 q)) ∧
    (∀ q : ℚ, ((2 : ℚ) ^ 63 < q ∨ q < -((2 : ℚ) ^ 63)) →
        utils.ToInt (Value.vfloat64 q) = .error .notInt) ∧
    (∀ (s : String) (n : Int), atoi s = some n →
        utils.ToInt (Value.str s) = .ok n) ∧
    (∀ s : String, atoi s = none → utils.ToInt (Value.str s) = .error .notInt) ∧
    (∀ n : Int, utils.ToInt32 (Value.vint32 n) = .ok n) ∧
    (∀ n : Int, -(2 ^ 31) ≤ n → n ≤ 2 ^ 31 - 1 →
        utils.ToInt32 (Value.vint n) = .ok n) ∧
    (∀ n : Int, ((2 ^ 31 - 1 : Int) < n ∨ n < -(2 ^ 31)) →
        utils.ToInt32 (Value.vint n) = .error .notInt32) ∧
    (∀ q : ℚ, utils.ToInt32 (Value.vfloat64 q) = .error .notInt32) ∧
    (∀ n : Int, utils.ToInt32 (Value.vint64 n) = .error .notInt32) ∧
    (∀ (s : String) (n : Int), parseInt32 s = some n →
        utils.ToInt32 (Value.str s) = .ok n) ∧
    (∀ s : String, parseInt32 s = none →
        utils.ToInt32 (Value.str s) = .error .notInt32) ∧
    (∀ n : Int, utils.ToInt64 (Value.vint64 n) = .ok n) ∧
    (∀ n : Int, n ≤ 2 ^ 63 - 1 → utils.ToInt64 (Value.vint n) = .ok n) ∧
    (∀ q : ℚ, utils.ToInt64 (Value.vfloat64 q) = .ok (utils.goFloatToInt64 q)) ∧
    (∀ (s : String) (n : Int), parseInt64 s = some n →
        utils.ToInt64 (Value.str s) = .ok n) ∧
    (∀ s : String, parseInt64 s = none →
        utils.ToInt64 (Value.str s) = .error .notInt64) := by
  refine ⟨fun n => rfl, ?_, ?_, ?_, ?_, ?_, fun n => rfl, ?_, ?_,
    fun q => rfl, fun n => rfl, ?_, ?_, fun n => rfl, ?_, fun q => rfl,
    ?_, ?_⟩
  · intro n h1 h2
    simp only [utils.ToInt]
    rw [if_neg ?_]
    rintro (h | h) <;> omega
  · intro q h1 h2
    simp only [utils.ToInt]
    rw [if_neg ?_]
    rintro (h | h) <;> linarith
  · intro q h
    simp only [utils.ToInt]
    rw [if_pos h]
  · intro s n h
    simp only [utils.ToInt, h]
  · intro s h
    simp only [utils.ToInt, h]
  · intro n h1 h2
    simp only [utils.ToInt32]
    rw [if_neg ?_]
    rintro (h | h) <;> omega
  · intro n h
    simp only [utils.ToInt32]
    rw [if_pos h]
  · intro s n h
    simp only [utils.ToInt32, h]
  · intro s h
    simp only [utils.ToInt32, h]
  · intro n h
    simp only [utils.ToInt64]
    rw [if_neg ?_]
    omega
  · intro s n h
    simp only [utils.ToInt64, h]
  · intro s h
    simp only [utils.ToInt64, h]

/-- Witness for C3: each hypothesis-bearing conjunct at a concrete input. -/
theorem toInt_family_witness :
    utils.ToInt (Value.vint64 7) = .ok 7 ∧
    utils.ToInt (Value.vfloat64 (5 / 2)) =
      .ok (utils.goFloatToInt64 (5 / 2)) ∧
    utils.ToInt (Value.vfloat64 ((2 : ℚ) ^ 64)) = .error .notInt ∧
    utils.ToInt (Value.str "42") = .ok 42 ∧
    utils.ToInt (Value.str "x") = .error .notInt ∧
    utils.ToInt32 (Value.vint 7) = .ok 7 ∧
    utils.ToInt32 (Value.vint (2 ^ 31)) = .error .notInt32 ∧
    utils.ToInt32 (Value.str "42") = .ok 42 ∧
    utils.ToInt32 (Value.str "2147483648") = .error .notInt32 ∧
    utils.ToInt64 (Value.vint 7) = .ok 7 ∧
    utils.ToInt64 (Value.str "9876543210") = .ok 9876543210 ∧
    utils.ToInt64 (Value.str "x") = .error .notInt64 := by
  refine ⟨toInt_family_spec.2.1 7 (by decide) (by decide),
    toInt_family_spec.2.2.1 (5 / 2) (by norm_num) (by norm_num),
    toInt_family_spec.2.2.2.1 ((2 : ℚ) ^ 64) (Or.inl (by norm_num)),
    toInt_family_spec.2.2.2.2.1 "42" 42 (by decide),
    toInt_family_spec.2.2.2.2.2.1 "x" (by decide),
    toInt_family_spec.2.2.2.2.2.2.2.1 7 (by decide) (by decide),
    toInt_family_spec.2.2.2.2.2.2.2.2.1 (2 ^ 31) (Or.inl (by decide)),
    toInt_family_spec.2.2.2.2.2.2.2.2.2.2.2.1 "42" 42 (by decide),
    toInt_family_spec.2.2.2.2.2.2.2.2.2.2.2.2.1 "2147483648" (by decide),
    toInt_family_spec.2.2.2.2.2.2.2.2.2.2.2.2.2.2.1 7 (by decide),
    toInt_family_spec.2.2.2.2.2.2.2.2.2.2.2.2.2.2.2.2.1 "9876543210"
      9876543210 (by decide),
    toInt_family_spec.2.2.2.2.2.2.2.2.2.2.2.2.2.2.2.2.2 "x" (by decide)⟩

/-- Counterexample for C3 as stated: the float64 value 2 is exactly
representable and well within the int32 range, yet ToInt32 rejects it (the
code has no float branch for the Int32 target), where the claim requires
acceptance of any in-range float. -/
theorem toInt32_float_cex :
    utils.ToInt32 (Value.vfloat64 2) = .error .notInt32 ∧
    (-((2 : ℚ) ^ 31) ≤ 2 ∧ (2 : ℚ) ≤ 2 ^ 31 - 1) := by
  exact ⟨rfl, by norm_num, by norm_num⟩

/-- Every entry of the converter table carries a specific per-type static
error, never the generic wrong-type, not-found or unknown-type signals. -/
theorem converterFor_errStatic {typ : config.KeyType} {entry : config.ConvEntry}
    (h : config.converterFor typ = some entry) :
    entry.errStatic ≠ .wrongType ∧ entry.errStatic ≠ .keyNotFound ∧
      entry.errStatic ≠ .unknownType := by
  have hmem : ∃ p ∈ config.typeConverters, p.2 = entry := by
    unfold config.converterFor at h
    generalize config.typeConverters = l at h ⊢
    induction l with
    | nil => cases h
    | cons p rest ih =>
      obtain ⟨k, ent⟩ := p
      by_cases hk : k = typ
      · simp only [config.lookupConv] at h
        rw [if_pos hk] at h
        injection h with he
        exact ⟨(k, ent), List.mem_cons_self _ _, he⟩
      · simp only [config.lookupConv] at h
        rw [if_neg hk] at h
        obtain ⟨p2, hp2, he⟩ := ih h
        exact ⟨p2, List.mem_cons_of_mem _ hp2, he⟩
  obtain ⟨p, hp, he⟩ := hmem
  have hall : ∀ p ∈ config.typeConverters,
      p.2.errStatic ≠ ConfigError.wrongType ∧
      p.2.errStatic ≠ ConfigError.keyNotFound ∧
      p.2.errStatic ≠ ConfigError.unknownType := by decide
  rw [← he]
  exact hall p hp

/-- Reduction of tryTypeCast once the converter entry is known. -/
theorem tryTypeCast_eq_of_entry {typ : config.KeyType} {entry : config.ConvEntry}
    (hc : config.converterFor typ = some entry) (v : Value) :
    config.tryTypeCast v typ =
      (match entry.fn v with
        | Except.error _ => (Except.error entry.errStatic : Except ConfigError Value)
        | Except.ok r => Except.ok r) := by
  unfold config.tryTypeCast
  rw [hc]

/-- A tryTypeCast failure is never the generic wrong-type error and never
the not-found error: it is either the unknown-type error or the specific
static error of the requested type. -/
theorem tryTypeCast_error_specific {v : Value} {typ : config.KeyType}
    {e : ConfigError} (h : config.tryTypeCast v typ = .error e) :
    e ≠ .wrongType ∧ e ≠ .keyNotFound := by
  cases hc : config.converterFor typ with
  | none =>
    unfold config.tryTypeCast at h
    rw [hc] at h
    have h2 : (Except.error ConfigError.unknownType : Except ConfigError Value) =
        Except.error e := h
    injection h2 with he
    subst he
    exact ⟨by decide, by decide⟩
  | some entry =>
    rw [tryTypeCast_eq_of_entry hc] at h
    cases hf : entry.fn v with
    | error e2 =>
      rw [hf] at h
      have h2 : (Except.error entry.errStatic : Except ConfigError Value) =
          Except.error e := h
      injection h2 with he
      subst he
      have hs := converterFor_errStatic hc
      exact ⟨hs.1, hs.2.1⟩
    | ok r =>
      rw [hf] at h
      have h2 : (Except.ok r : Except ConfigError Value) = Except.error e := h
      cases h2

/-- C4: a flat hit whose coercion fails surfaces the specific static
per-type error of tryTypeCast, which is never the generic wrong-type error;
a value found only through path resolution whose coercion fails is reported
as the generic wrong-type error instead. -/
theorem get_error_asymmetry :
    (∀ (m : Smap) (key : String) (typ : config.KeyType) (v : Value)
        (e : ConfigError),
        key ≠ "" → dotmap.lookupCS m key = some v →
        config.tryTypeCast v typ = .error e →
        config.Get (some m) key typ = .error e ∧ e ≠ .wrongType) ∧
    (∀ (m : Smap) (key : String) (typ : config.KeyType) (e : ConfigError),
        key ≠ "" → dotmap.lookupCS m key = none →
        dotmap.Resolve (some m) key ≠ .vnil →
        config.tryTypeCast (dotmap.Resolve (some m) key) typ = .error e →
        config.Get (some m) key typ = .error .wrongType) := by
  constructor
  · intro m key typ v e hkey hflat hcast
    refine ⟨?_, (tryTypeCast_error_specific hcast).1⟩
    simp only [config.Get]
    rw [if_neg hkey]
    simp only [hflat, hcast]
  · intro m key typ e hkey hflat hres hcast
    simp only [config.Get]
    rw [if_neg hkey]
    simp only [hflat]
    cases hr : dotmap.Resolve (some m) key
    case vnil => exact absurd hr hres
    all_goals rw [hr] at hcast; simp only [hcast]

/-- Witness for C4: a flat string value requested as Int surfaces the
specific NotInt error, while the same failure on a nested, path-resolved
value collapses to the generic wrong-type error. -/
theorem get_error_asymmetry_witness :
    config.Get (some [("a", Value.str "x")]) "a" config.KeyType.int =
      .error .notInt ∧
    config.Get (some [("a", Value.smap [("b", Value.str "x")])]) "a.b"
      config.KeyType.int = .error .wrongType := by
  constructor
  · exact (get_error_asymmetry.1 [("a", Value.str "x")] "a"
      config.KeyType.int (Value.str "x") ConfigError.notInt (by decide)
      rfl rfl).1
  · exact get_error_asymmetry.2 [("a", Value.smap [("b", Value.str "x")])]
      "a.b" config.KeyType.int ConfigError.notInt (by decide) rfl
      (fun h => Value.noConfusion h) rfl

/-- C5: when the Provider re-read fails, Reload reports the error and the
Config state — in particular the Getter snapshot — is exactly the one from
before the call, so every Get observes the old snapshot; a new snapshot
(the full settings view of the provider after the successful read) replaces
the old one exactly when the read succeeds. -/
theorem reload_no_partial_update :
    ∀ c : config.ConfigS,
      ((config.Reload c).1.isSome →
        (config.Reload c).2 = c ∧
        (config.Reload c).2.getter = c.getter ∧
        ∀ (key : String) (typ : config.KeyType),
          config.Get (config.Reload c).2.getter key typ =
            config.Get c.getter key typ) ∧
      ((config.Reload c).1 = none →
        ∃ p, c.provider.readNext = some p ∧
          (config.Reload c).2.getter = some p.settings ∧
          (config.Reload c).2.provider = p) := by
  intro c
  constructor
  · intro h
    cases hr : c.provider.readNext with
    | none =>
      refine ⟨?_, ?_, ?_⟩
      · simp [config.Reload, hr]
      · simp [config.Reload, hr]
      · intro key typ
        simp [config.Reload, hr]
    | some p =>
      exfalso
      simp [config.Reload, hr] at h
  · intro h
    cases hr : c.provider.readNext with
    | none => simp [config.Reload, hr] at h
    | some p =>
      exact ⟨p, rfl, by simp [config.Reload, hr], by simp [config.Reload, hr]⟩

/-- Witness for C5: a provider whose read fails keeps the snapshot, and one
whose read succeeds installs its settings view. -/
theorem reload_no_partial_update_witness :
    (config.Reload ⟨.mk [("old", Value.str "o")] none,
        some [("old", Value.str "o")]⟩).2 =
      ⟨.mk [("old", Value.str "o")] none, some [("old", Value.str "o")]⟩ ∧
    ∃ p, (config.ProviderModel.mk [("old", Value.str "o")]
          (some (.mk [("new", Value.str "n")] none))).readNext = some p ∧
        (config.Reload ⟨.mk [("old", Value.str "o")]
            (some (.mk [("new", Value.str "n")] none)),
          some [("old", Value.str "o")]⟩).2.getter = some p.settings ∧
        (config.Reload ⟨.mk [("old", Value.str "o")]
            (some (.mk [("new", Value.str "n")] none)),
          some [("old", Value.str "o")]⟩).2.provider = p := by
  constructor
  · exact ((reload_no_partial_update ⟨.mk [("old", Value.str "o")] none,
      some [("old", Value.str "o")]⟩).1 rfl).1
  · exact (reload_no_partial_update ⟨.mk [("old", Value.str "o")]
      (some (.mk [("new", Value.str "n")] none)),
      some [("old", Value.str "o")]⟩).2 rfl

/-- Get on a flat hit: the coercion result with its error surfaced as is. -/
theorem get_flat_eq (m : Smap) (key : String) (typ : config.KeyType)
    (v : Value) (hkey : key ≠ "") (hf : dotmap.lookupCS m key = some v) :
    config.Get (some m) key typ =
      (match config.tryTypeCast v typ with
        | .error e => (.error e : Except ConfigError Value)
        | .ok r => .ok r) := by
  simp only [config.Get]
  rw [if_neg hkey]
  simp only [hf]

/-- Get when both the flat lookup and path resolution miss: not found. -/
theorem get_path_nil_eq (m : Smap) (key : String) (typ : config.KeyType)
    (hkey : key ≠ "") (hf : dotmap.lookupCS m key = none)
    (hr : dotmap.Resolve (some m) key = .vnil) :
    config.Get (some m) key typ = .error .keyNotFound := by
  simp only [config.Get]
  rw [if_neg hkey]
  simp only [hf, hr]

/-- Get when the value is found only by path resolution and its coercion
fails: the generic wrong-type error. -/
theorem get_path_err_eq (m : Smap) (key : String) (typ : config.KeyType)
    (e : ConfigError) (hkey : key ≠ "") (hf : dotmap.lookupCS m key = none)
    (hres : dotmap.Resolve (some m) key ≠ .vnil)
    (hc : config.tryTypeCast (dotmap.Resolve (some m) key) typ = .error e) :
    config.Get (some m) key typ = .error .wrongType := by
  simp only [config.Get]
  rw [if_neg hkey]
  simp only [hf]
  cases hr : dotmap.Resolve (some m) key
  case vnil => exact absurd hr hres
  all_goals rw [hr] at hc; simp only [hc]

/-- Get when the value is found only by path resolution and its coercion
succeeds. -/
theorem get_path_ok_eq (m : Smap) (key : String) (typ : config.KeyType)
    (r : Value) (hkey : key ≠ "") (hf : dotmap.lookupCS m key = none)
    (hres : dotmap.Resolve (some m) key ≠ .vnil)
    (hc : config.tryTypeCast (dotmap.Resolve (some m) key) typ = .ok r) :
    config.Get (some m) key typ = .ok r := by
  simp only [config.Get]
  rw [if_neg hkey]
  simp only [hf]
  cases hr : dotmap.Resolve (some m) key
  case vnil => exact absurd hr hres
  all_goals rw [hr] at hc; simp only [hc]

/-- C6: for a non-empty key over a non-nil snapshot, HasKey is true exactly
when the flat lookup hits or path resolution is non-nil; equivalently, it is
true exactly when no requested type makes Get report not-found — coercion
failures (which surface as other errors) never make an existing key look
absent. -/
theorem hasKey_existence :
    ∀ (m : Smap) (key : String), key ≠ "" →
      (config.HasKey (some m) key = true ↔
        ((dotmap.lookupCS m key).isSome = true ∨
          dotmap.Resolve (some m) key ≠ Value.vnil)) ∧
      (config.HasKey (some m) key = true ↔
        ∀ typ : config.KeyType,
          config.Get (some m) key typ ≠ .error .keyNotFound) := by
  intro m key hkey
  have h1 : config.HasKey (some m) key = true ↔
      ((dotmap.lookupCS m key).isSome = true ∨
        dotmap.Resolve (some m) key ≠ Value.vnil) := by
    simp only [config.HasKey]
    rw [if_neg hkey]
    cases hf : dotmap.lookupCS m key with
    | some v => simp
    | none =>
      simp only [Option.isSome_none, Bool.false_eq_true, false_or]
      cases hr : dotmap.Resolve (some m) key <;>
        simp [Value.isNil]
  refine ⟨h1, h1.trans ⟨?_, ?_⟩⟩
  · rintro (hflat | hres) typ
    · obtain ⟨v, hv⟩ := Option.isSome_iff_exists.mp hflat
      rw [get_flat_eq m key typ v hkey hv]
      cases hc : config.tryTypeCast v typ with
      | error e =>
        simp only [hc]
        intro hcontra
        injection hcontra with he
        exact (tryTypeCast_error_specific hc).2 he
      | ok r =>
        simp only [hc]
        intro hcontra
        cases hcontra
    · cases hf : dotmap.lookupCS m key with
      | some v =>
        rw [get_flat_eq m key typ v hkey hf]
        cases hc : config.tryTypeCast v typ with
        | error e =>
          simp only [hc]
          intro hcontra
          injection hcontra with he
          exact (tryTypeCast_error_specific hc).2 he
        | ok r =>
          simp only [hc]
          intro hcontra
          cases hcontra
      | none =>
        cases hc : config.tryTypeCast (dotmap.Resolve (some m) key) typ with
        | error e =>
          rw [get_path_err_eq m key typ e hkey hf hres hc]
          intro hcontra
          injection hcontra with he
          exact absurd he (by decide)
        | ok r =>
          rw [get_path_ok_eq m key typ r hkey hf hres hc]
          intro hcontra
          cases hcontra
  · intro hall
    by_cases hf : (dotmap.lookupCS m key).isSome = true
    · exact Or.inl hf
    · right
      intro hr
      have hfn : dotmap.lookupCS m key = none :=
        Option.not_isSome_iff_eq_none.mp hf
      exact hall config.KeyType.int
        (get_path_nil_eq m key config.KeyType.int hkey hfn hr)

/-- Witness for C6: a nested key two levels deep is reported present even
though its value is not coercible to Int, and with no flat entry for the
full path. -/
theorem hasKey_existence_witness :
    (config.HasKey
        (some [("nested", Value.smap [("deep",
          Value.smap [("val", Value.vbool true)])])]) "nested.deep.val" =
      true ↔
      ((dotmap.lookupCS [("nested", Value.smap [("deep",
          Value.smap [("val", Value.vbool true)])])] "nested.deep.val").isSome
          = true ∨
        dotmap.Resolve (some [("nested", Value.smap [("deep",
          Value.smap [("val", Value.vbool true)])])]) "nested.deep.val" ≠
          Value.vnil)) ∧
    config.HasKey
        (some [("nested", Value.smap [("deep",
          Value.smap [("val", Value.vbool true)])])]) "nested.deep.val" =
      true := by
  constructor
  · exact (hasKey_existence [("nested", Value.smap [("deep",
      Value.smap [("val", Value.vbool true)])])] "nested.deep.val"
      (by decide)).1
  · rfl

/-- C8: every convenience typed accessor requests Get with its matching type
tag and collapses any Get error to the zero value of its result type — the
empty string, 0, false, the nil slice or the nil map — propagating
nothing. -/
theorem accessors_zero_on_error :
    ∀ (cfg : Option Smap) (key : String) (e : ConfigError),
      (config.Get cfg key config.KeyType.string = .error e →
        config.GetString cfg key = "") ∧
      (config.Get cfg key config.KeyType.int = .error e →
        config.GetInt cfg key = 0) ∧
      (config.Get cfg key config.KeyType.bool = .error e →
        config.GetBool cfg key = false) ∧
      (config.Get cfg key config.KeyType.float64 = .error e →
        config.GetFloat64 cfg key = 0) ∧
      (config.Get cfg key config.KeyType.int64 = .error e →
        config.GetInt64 cfg key = 0) ∧
      (config.Get cfg key config.KeyType.duration = .error e →
        config.GetDuration cfg key = 0) ∧
      (config.Get cfg key config.KeyType.time = .error e →
        config.GetTime cfg key = 0) ∧
      (config.Get cfg key config.KeyType.stringSlice = .error e →
        config.GetStringSlice cfg key = none) ∧
      (config.Get cfg key config.KeyType.map = .error e →
        config.GetStringMap cfg key = none) := by
  intro cfg key e
  refine ⟨?_, ?_, ?_, ?_, ?_, ?_, ?_, ?_, ?_⟩ <;> intro h
  · simp [config.GetString, h]
  · simp [config.GetInt, h]
  · simp [config.GetBool, h]
  · simp [config.GetFloat64, h]
  · simp [config.GetInt64, h]
  · simp [config.GetDuration, h]
  · simp [config.GetTime, h]
  · simp [config.GetStringSlice, h]
  · simp [config.GetStringMap, h]

/-- Witness for C8: over the empty snapshot every accessor returns its zero
value for a missing key. -/
theorem accessors_zero_on_error_witness :
    config.GetString (some []) "x" = "" ∧
    config.GetInt (some []) "x" = 0 ∧
    config.GetBool (some []) "x" = false ∧
    config.GetFloat64 (some []) "x" = 0 ∧
    config.GetInt64 (some []) "x" = 0 ∧
    config.GetDuration (some []) "x" = 0 ∧
    config.GetTime (some []) "x" = 0 ∧
    config.GetStringSlice (some []) "x" = none ∧
    config.GetStringMap (some []) "x" = none := by
  have h := accessors_zero_on_error (some []) "x" ConfigError.keyNotFound
  exact ⟨h.1 rfl, h.2.1 rfl, h.2.2.1 rfl, h.2.2.2.1 rfl, h.2.2.2.2.1 rfl,
    h.2.2.2.2.2.1 rfl, h.2.2.2.2.2.2.1 rfl, h.2.2.2.2.2.2.2.1 rfl,
    h.2.2.2.2.2.2.2.2 rfl⟩

/-- The Map coercion only succeeds on a map[string]interface{}. -/
theorem tryTypeCast_map_ok {v r : Value}
    (h : config.tryTypeCast v config.KeyType.map = .ok r) :
    ∃ m2, r = Value.smap m2 := by
  have hcf : config.converterFor config.KeyType.map =
      some ⟨fun v => (utils.ToMap v).map Value.smap, .notMap⟩ := rfl
  rw [tryTypeCast_eq_of_entry hcf] at h
  have h2 : (match (utils.ToMap v).map Value.smap with
      | Except.error _ => (Except.error ConfigError.notMap :
          Except ConfigError Value)
      | Except.ok r2 => Except.ok r2) = Except.ok r := h
  cases hm : utils.ToMap v with
  | error e2 =>
    rw [hm] at h2
    have h3 : (Except.error ConfigError.notMap : Except ConfigError Value) =
        Except.ok r := h2
    cases h3
  | ok m2 =>
    rw [hm] at h2
    have h3 : (Except.ok (Value.smap m2) : Except ConfigError Value) =
        Except.ok r := h2
    injection h3 with hr
    exact ⟨m2, hr.symm⟩

/-- A successful Get is a successful coercion of some located value. -/
theorem get_ok_cast {cfg : Option Smap} {key : String} {typ : config.KeyType}
    {r : Value} (h : config.Get cfg key typ = .ok r) :
    ∃ v, config.tryTypeCast v typ = .ok r := by
  cases cfg with
  | none =>
    have h2 : (Except.error ConfigError.keyNotFound :
        Except ConfigError Value) = .ok r := h
    cases h2
  | some m =>
    by_cases hkey : key = ""
    · have h2 : (Except.error ConfigError.keyNotFound :
          Except ConfigError Value) = .ok r := by
        rw [← h]
        simp [config.Get, hkey]
      cases h2
    · cases hf : dotmap.lookupCS m key with
      | some v =>
        rw [get_flat_eq m key typ v hkey hf] at h
        cases hc : config.tryTypeCast v typ with
        | error e =>
          rw [hc] at h
          have h2 : (Except.error e : Except ConfigError Value) = .ok r := h
          cases h2
        | ok r2 =>
          rw [hc] at h
          have h2 : (Except.ok r2 : Except ConfigError Value) = .ok r := h
          injection h2 with hr
          exact ⟨v, hr ▸ hc⟩
      | none =>
        by_cases hres : dotmap.Resolve (some m) key = .vnil
        · rw [get_path_nil_eq m key typ hkey hf hres] at h
          cases h
        · cases hc : config.tryTypeCast (dotmap.Resolve (some m) key) typ with
          | error e =>
            rw [get_path_err_eq m key typ e hkey hf hres hc] at h
            cases h
          | ok r2 =>
            rw [get_path_ok_eq m key typ r2 hkey hf hres hc] at h
            injection h with hr
            exact ⟨_, hr ▸ hc⟩

/-- C9: GetStringMapString always returns the nil map: the Map coercion it
requests only ever produces a map[string]interface{} value, and the
subsequent assertion to map[string]string can never hold. -/
theorem getStringMapString_nil :
    ∀ (cfg : Option Smap) (key : String),
      config.GetStringMapString cfg key = none := by
  intro cfg key
  simp only [config.GetStringMapString]
  cases hg : config.Get cfg key config.KeyType.map with
  | error e => rfl
  | ok v =>
    obtain ⟨w, hc⟩ := get_ok_cast hg
    obtain ⟨m2, rfl⟩ := tryTypeCast_map_ok hc
    rfl

/-- The String coercion succeeds exactly on strings, returning them as is. -/
theorem tryTypeCast_string_eq (w : Value) :
    config.tryTypeCast w config.KeyType.string =
      (match w with
        | .str s => Except.ok (Value.str s)
        | _ => .error .notString) := by
  cases w <;> rfl

/-- C10: GetKey returns the located raw value only when that value is a
string; any found value of another type is swallowed by the String coercion
and GetKey returns nil instead. -/
theorem getKey_string_only :
    ∀ (cfg : Option Smap) (key : String),
      config.GetKey cfg key =
        (match config.lookupRaw cfg key with
          | some (.str s) => Value.str s
          | _ => Value.vnil) := by
  intro cfg key
  cases cfg with
  | none => rfl
  | some m =>
    by_cases hkey : key = ""
    · subst hkey
      rfl
    · cases hf : dotmap.lookupCS m key with
      | some v =>
        have hg := get_flat_eq m key config.KeyType.string v hkey hf
        have hlr : config.lookupRaw (some m) key = some v := by
          simp only [config.lookupRaw]
          rw [if_neg hkey]
          simp only [hf]
        rw [tryTypeCast_string_eq v] at hg
        cases v <;> simp [config.GetKey, hg, hlr]
      | none =>
        by_cases hres : dotmap.Resolve (some m) key = .vnil
        · have hg := get_path_nil_eq m key config.KeyType.string hkey hf hres
          have hlr : config.lookupRaw (some m) key = none := by
            simp only [config.lookupRaw]
            rw [if_neg hkey]
            simp only [hf, hres]
          simp [config.GetKey, hg, hlr]
        · cases hr : dotmap.Resolve (some m) key
          · exact absurd hr hres
          · rename_i s
            have hc : config.tryTypeCast (dotmap.Resolve (some m) key)
                config.KeyType.string = .ok (Value.str s) := by
              rw [hr]
              exact tryTypeCast_string_eq _
            have hg := get_path_ok_eq m key config.KeyType.string
              (Value.str s) hkey hf hres hc
            simp [config.GetKey, hg, config.lookupRaw, hkey, hf, hr]
          all_goals
            (have hc : config.tryTypeCast (dotmap.Resolve (some m) key)
                config.KeyType.string = .error .notString := by
              rw [hr]
              exact tryTypeCast_string_eq _
             have hg := get_path_err_eq m key config.KeyType.string
               ConfigError.notString hkey hf hres hc
             simp [config.GetKey, hg, config.lookupRaw, hkey, hf, hr])
